import Mathlib

/-!
Verification of the oplog retention mechanism described in the repository's
specification and exercised by `jstests/replsets/inmemory_preserves_active_txns.js`.

The retention engine itself (ActiveTransactionTracker, CheckpointClock,
RetentionPolicyEngine, OplogTruncator) is not part of the repository sources;
only the jstest that exercises it is.  The definitions below therefore model
the engine from the specification's words, and the jstest is used as the
authority wherever it pins down behaviour (oplog-entry formats, replication
ordering of the side-table versus the oplog entry).
-/

/-- A single oplog entry: a logical timestamp, a payload size in bytes, and an
optional marker identifying it as the prepare record of a transaction.
Modelled from the spec: "LogEntry: ordered by a monotonically increasing
logical timestamp; fields include timestamp, operation payload, and optionally
a marker identifying it as belonging to a transaction's prepare record." -/
structure LogEntry where
  ts : Nat
  size : Nat
  prepareTxn : Option Nat
deriving DecidableEq

/-- Error raised on conflicting re-registration of a transaction's start
timestamp.  Modelled from the spec: "InvariantViolation (fatal to the
operation, not the process)". -/
inductive TrackerError where
  | InvariantViolation
deriving DecidableEq

/-- Modelled from the spec: "ActiveTransactionTracker maintains, per node, the
set of transactions that are prepared-but-undecided, each with the timestamp of
its first oplog entry".  The set is kept as an association list from
transaction id to `startOpTime`. -/
structure Tracker where
  entries : List (Nat × Nat)
deriving DecidableEq

/-- Look up the recorded `startOpTime` of a transaction id. -/
def Tracker.lookup (tr : Tracker) (tx : Nat) : Option Nat :=
  (tr.entries.find? (fun p => p.1 = tx)).map (fun p => p.2)

/-- Modelled from the spec: "`recordPrepared` is idempotent per `txnId`;
re-recording with a different `startOpTime` is a programming error (fails with
InvariantViolation)." -/
def Tracker.recordPrepared (tr : Tracker) (tx startOpTime : Nat) :
    Except TrackerError Tracker :=
  match tr.lookup tx with
  | none => .ok ⟨(tx, startOpTime) :: tr.entries⟩
  | some t => if t = startOpTime then .ok tr else .error .InvariantViolation

/-- Modelled from the spec: "`recordResolved` removes the entry; resolving an
unknown `txnId` is a no-op". -/
def Tracker.recordResolved (tr : Tracker) (tx : Nat) : Tracker :=
  ⟨tr.entries.filter (fun p => p.1 ≠ tx)⟩

/-- Modelled from the spec: "`oldestActiveTimestamp` returns the minimum
`startOpTime` among all currently tracked entries, or empty if none". -/
def Tracker.oldestActiveTimestamp (tr : Tracker) : Option Nat :=
  tr.entries.foldr
    (fun p acc => some (match acc with | none => p.2 | some m => min p.2 m)) none

/-- Error raised on an attempt to move the checkpoint clock backward.
Modelled from the spec: "OutOfOrderCheckpoint (rejected, logged, ignored)". -/
inductive ClockError where
  | OutOfOrderCheckpoint
deriving DecidableEq

/-- Modelled from the spec: "CheckpointClock exposes the timestamp of the most
recently completed stable checkpoint". -/
structure CheckpointClock where
  value : Nat
deriving DecidableEq

/-- Modelled from the spec: "`advance` rejects (fails with OutOfOrderCheckpoint)
a timestamp older than the current value — checkpoints are monotonic." -/
def CheckpointClock.advance (c : CheckpointClock) (ts : Nat) :
    Except ClockError CheckpointClock :=
  if ts < c.value then .error .OutOfOrderCheckpoint else .ok ⟨ts⟩

/-- The current clock reading. -/
def CheckpointClock.lastStableCheckpoint (c : CheckpointClock) : Nat :=
  c.value

/-- Run `advance` in the style the checkpoint subsystem does: a rejected
advance is "rejected, logged, ignored", leaving the clock unchanged. -/
def CheckpointClock.applyAdvance (c : CheckpointClock) (ts : Nat) :
    CheckpointClock :=
  match c.advance ts with
  | .ok c1 => c1
  | .error _ => c

/-- Total bytes held by a list of oplog entries. -/
def logBytes (l : List LogEntry) : Nat :=
  (l.map (fun e => e.size)).sum

/-- Modelled from the spec: "`sizeCutoff` = the timestamp of the newest entry
such that deleting everything older brings `currentLogBytes` at or under
`configuredMaxBytes`", subject to "never truncate the newest write": walking
from the oldest end, entries are given up while the remaining size still
exceeds the maximum, but the newest entry is always kept. -/
def sizeCutoff (maxBytes : Nat) : List LogEntry → Nat
  | [] => 0
  | [e] => e.ts
  | e :: e1 :: rest =>
      if logBytes (e :: e1 :: rest) ≤ maxBytes then e.ts
      else sizeCutoff maxBytes (e1 :: rest)

/-- Modelled from the spec: "Boundary = `sizeCutoff` if `floor` is empty or
`floor > sizeCutoff`; otherwise `floor`." -/
def computeBoundary (cutoff : Nat) (floor : Option Nat) : Nat :=
  match floor with
  | none => cutoff
  | some f => if cutoff < f then cutoff else f

/-- The full per-node retention state.  Modelled from the spec's data model:
the oplog (oldest first), the strictly-increasing timestamp source, the
timestamp of the newest appended entry, the ActiveTransactionTracker, the
CheckpointClock, the tracker floor as sampled at the last checkpoint, and the
last enforced truncation boundary. -/
structure NodeState where
  maxBytes : Nat
  log : List LogEntry
  nextTs : Nat
  lastTs : Nat
  tracker : Tracker
  clock : CheckpointClock
  ckptFloor : Option Nat
  boundary : Nat
deriving DecidableEq

/-- Append one entry at the newest end of the oplog, stamping it with the next
timestamp. -/
def appendEntry (s : NodeState) (sz : Nat) (ptx : Option Nat) : NodeState :=
  { s with
    log := s.log ++ [⟨s.nextTs, sz, ptx⟩]
    lastTs := s.nextTs
    nextTs := s.nextTs + 1 }

/-- Append a list of plain (non-prepare) entries with the given sizes. -/
def appendBody : NodeState → List Nat → NodeState
  | s, [] => s
  | s, sz :: rest => appendBody (appendEntry s sz none) rest

/-- Prepare a transaction: record it in the tracker with `startOpTime` equal to
the timestamp of its first oplog entry, append the body entries (empty under
the single-oplog-entry format) and then the prepare record itself.  A
conflicting re-registration fails with InvariantViolation and leaves the state
unchanged (fatal to the operation, not the process). -/
def NodeState.doPrepare (s : NodeState) (tx : Nat) (bodySizes : List Nat)
    (prepSize : Nat) : NodeState :=
  match s.tracker.recordPrepared tx s.nextTs with
  | .error _ => s
  | .ok tr1 =>
      let s1 := appendBody s bodySizes
      let s2 := appendEntry s1 prepSize (some tx)
      { s2 with tracker := tr1 }

/-- Commit or abort a transaction: append the resolution entry and drop the
transaction from the tracker (a no-op removal if it is unknown). -/
def NodeState.doResolve (s : NodeState) (tx : Nat) (sz : Nat) : NodeState :=
  let s1 := appendEntry s sz none
  { s1 with tracker := s.tracker.recordResolved tx }

/-- A checkpoint: advance the checkpoint clock to the newest durable entry and
sample the tracker floor.  Modelled from the spec: "on each checkpoint tick,
RetentionPolicyEngine snapshots (max-size boundary, oldest-active-txn
timestamp)". -/
def NodeState.doCheckpoint (s : NodeState) : NodeState :=
  { s with
    clock := s.clock.applyAdvance s.lastTs
    ckptFloor := s.tracker.oldestActiveTimestamp }

/-- The freshly computed truncation boundary: the size-based cutoff, capped at
the last stable checkpoint ("truncation decisions are only safe relative to
the last checkpoint"), combined with the floor sampled at that checkpoint
("never using a floor newer than the last checkpoint's snapshot"). -/
def NodeState.newBoundary (s : NodeState) : Nat :=
  computeBoundary (min (sizeCutoff s.maxBytes s.log) s.clock.lastStableCheckpoint)
    s.ckptFloor

/-- One successful truncator tick: enforce `max(previousBoundary, newBoundary)`
("never regress") and delete every entry with a timestamp strictly below the
enforced boundary. -/
def NodeState.doTick (s : NodeState) : NodeState :=
  let b := max s.boundary s.newBoundary
  { s with
    boundary := b
    log := s.log.filter (fun e => b ≤ e.ts) }

/-- A truncator tick hit by a storage I/O error while deleting: of the doomed
oldest entries (those below the boundary this tick would enforce) only the
first `k` batches are gone, and no boundary advancement is recorded.  Modelled
from the spec: "if deletion of a batch fails (storage I/O error), the tick
aborts without partial boundary advancement being recorded". -/
def NodeState.doTickFail (s : NodeState) (k : Nat) : NodeState :=
  let b := max s.boundary s.newBoundary
  let doomed := s.log.takeWhile (fun e => e.ts < b)
  { s with log := s.log.drop (min k doomed.length) }

/-- The operations a node observes: appends from the replication feed,
transaction prepare/resolve, checkpoints, and truncator ticks (successful or
failing mid-deletion). -/
inductive Op where
  | append (sz : Nat)
  | prepare (tx : Nat) (bodySizes : List Nat) (prepSize : Nat)
  | resolve (tx : Nat) (sz : Nat)
  | checkpoint
  | tick
  | tickFail (k : Nat)
deriving DecidableEq

/-- Apply one operation to the node state. -/
def step (s : NodeState) : Op → NodeState
  | .append sz => appendEntry s sz none
  | .prepare tx body psz => s.doPrepare tx body psz
  | .resolve tx sz => s.doResolve tx sz
  | .checkpoint => s.doCheckpoint
  | .tick => s.doTick
  | .tickFail k => s.doTickFail k

/-- Apply a sequence of operations. -/
def run (s : NodeState) (ops : List Op) : NodeState :=
  ops.foldl step s

/-- The initial, empty node state for a configured maximum oplog size. -/
def init (maxBytes : Nat) : NodeState :=
  { maxBytes := maxBytes
    log := []
    nextTs := 1
    lastTs := 0
    tracker := ⟨[]⟩
    clock := ⟨0⟩
    ckptFloor := none
    boundary := 0 }

/-- Feed operations are the ones replicated to every node (appends, prepares,
resolutions); checkpoints and truncator ticks are local to a node. -/
def isFeedOp : Op → Bool
  | .append _ => true
  | .prepare _ _ _ => true
  | .resolve _ _ => true
  | .checkpoint => false
  | .tick => false
  | .tickFail _ => false

/-- Whether the floor sampled at the last checkpoint protects a transaction
whose `startOpTime` is `t`: either the transaction started after the last
checkpoint (`c < t`) or the sampled floor is at most `t`. -/
def floorOK (fl : Option Nat) (c t : Nat) : Bool :=
  decide (c < t) ||
    (match fl with
     | none => false
     | some f => decide (f ≤ t))

/-- The reachability invariant of a node state: the oplog is sorted by strictly
increasing timestamps and bounded by `lastTs < nextTs`, the clock never runs
ahead of the newest entry, the enforced boundary never runs ahead of the clock
nor past any surviving entry, and every tracked prepared transaction has its
`startOpTime` at or above the boundary, is protected by the sampled floor, and
still has its prepare record in the oplog. -/
def NodeInv (s : NodeState) : Prop :=
  s.log.Pairwise (fun a b => a.ts < b.ts) ∧
  (∀ e ∈ s.log, e.ts ≤ s.lastTs) ∧
  s.lastTs < s.nextTs ∧
  s.clock.value ≤ s.lastTs ∧
  s.boundary ≤ s.clock.value ∧
  (∀ e ∈ s.log, s.boundary ≤ e.ts) ∧
  (∀ p ∈ s.tracker.entries, p.2 < s.nextTs) ∧
  (∀ p ∈ s.tracker.entries, s.boundary ≤ p.2) ∧
  (∀ p ∈ s.tracker.entries, floorOK s.ckptFloor s.clock.value p.2 = true) ∧
  (∀ p ∈ s.tracker.entries,
    ∃ e ∈ s.log, e.prepareTxn = some p.1 ∧ p.2 ≤ e.ts)

instance (s : NodeState) : Decidable (NodeInv s) := by
  unfold NodeInv
  infer_instance

/-- The effect of one operation on the replicated, feed-determined part of the
node state: the ActiveTransactionTracker together with the timestamp source.
Local checkpoint and truncator-tick operations leave this pair untouched,
which is what makes a secondary's side-table agree with the primary's. -/
def feedStep : Tracker × Nat → Op → Tracker × Nat
  | (tr, n), .append _ => (tr, n + 1)
  | (tr, n), .prepare tx body _ =>
      (match tr.recordPrepared tx n with
       | .ok tr1 => (tr1, n + body.length + 1)
       | .error _ => (tr, n))
  | (tr, n), .resolve tx _ => (tr.recordResolved tx, n + 1)
  | q, .checkpoint => q
  | q, .tick => q
  | q, .tickFail _ => q

/-- One of the two storage writes a secondary performs while applying a
replicated prepared transaction: the oplog-entry write or the
config.transactions (side-table) write. -/
inductive ApplyOp where
  | oplogWrite (e : LogEntry)
  | sideWrite (tx : Nat) (startOpTime : Nat)
deriving DecidableEq

/-- The storage visible on a secondary while it applies replication batches:
its own oplog and its own side-table of transaction records. -/
structure SecApplyState where
  oplog : List LogEntry
  sideTable : List (Nat × Nat)
deriving DecidableEq

/-- Apply one secondary storage write. -/
def applyStep (s : SecApplyState) : ApplyOp → SecApplyState
  | .oplogWrite e => { s with oplog := s.oplog ++ [e] }
  | .sideWrite tx t => { s with sideTable := s.sideTable ++ [(tx, t)] }

/-- Run a sequence of secondary storage writes from empty storage. -/
def runApply (ops : List ApplyOp) : SecApplyState :=
  ops.foldl applyStep ⟨[], []⟩

/-- Modelled from the test (`inmemory_preserves_active_txns.js`: the prepare
oplog entry "must already be written on secondary, since the
config.transactions entry is"): a replicated prepared transaction reaches the
secondary's storage as its prepare oplog entry first, followed by the
side-table update. -/
def prepareApplyOps (tx t sz : Nat) : List ApplyOp :=
  [.oplogWrite ⟨t, sz, some tx⟩, .sideWrite tx t]

/-- The full write sequence a secondary performs for a list of replicated
prepared transactions, given as (txnId, startOpTime, size) triples. -/
def expandFeed : List (Nat × Nat × Nat) → List ApplyOp
  | [] => []
  | q :: rest => prepareApplyOps q.1 q.2.1 q.2.2 ++ expandFeed rest

/-! ### Field-preservation lemmas for appends -/

@[simp] theorem appendEntry_boundary (s : NodeState) (sz : Nat) (ptx : Option Nat) :
    (appendEntry s sz ptx).boundary = s.boundary := rfl

@[simp] theorem appendEntry_tracker (s : NodeState) (sz : Nat) (ptx : Option Nat) :
    (appendEntry s sz ptx).tracker = s.tracker := rfl

@[simp] theorem appendEntry_clock (s : NodeState) (sz : Nat) (ptx : Option Nat) :
    (appendEntry s sz ptx).clock = s.clock := rfl

@[simp] theorem appendEntry_ckptFloor (s : NodeState) (sz : Nat) (ptx : Option Nat) :
    (appendEntry s sz ptx).ckptFloor = s.ckptFloor := rfl

@[simp] theorem appendEntry_maxBytes (s : NodeState) (sz : Nat) (ptx : Option Nat) :
    (appendEntry s sz ptx).maxBytes = s.maxBytes := rfl

@[simp] theorem appendEntry_nextTs (s : NodeState) (sz : Nat) (ptx : Option Nat) :
    (appendEntry s sz ptx).nextTs = s.nextTs + 1 := rfl

@[simp] theorem appendEntry_lastTs (s : NodeState) (sz : Nat) (ptx : Option Nat) :
    (appendEntry s sz ptx).lastTs = s.nextTs := rfl

@[simp] theorem appendEntry_log (s : NodeState) (sz : Nat) (ptx : Option Nat) :
    (appendEntry s sz ptx).log = s.log ++ [⟨s.nextTs, sz, ptx⟩] := rfl

theorem appendBody_boundary (l : List Nat) (s : NodeState) :
    (appendBody s l).boundary = s.boundary := by
  induction l generalizing s with
  | nil => rfl
  | cons sz rest ih => exact ih (appendEntry s sz none)

theorem appendBody_tracker (l : List Nat) (s : NodeState) :
    (appendBody s l).tracker = s.tracker := by
  induction l generalizing s with
  | nil => rfl
  | cons sz rest ih => exact ih (appendEntry s sz none)

theorem appendBody_clock (l : List Nat) (s : NodeState) :
    (appendBody s l).clock = s.clock := by
  induction l generalizing s with
  | nil => rfl
  | cons sz rest ih => exact ih (appendEntry s sz none)

theorem appendBody_ckptFloor (l : List Nat) (s : NodeState) :
    (appendBody s l).ckptFloor = s.ckptFloor := by
  induction l generalizing s with
  | nil => rfl
  | cons sz rest ih => exact ih (appendEntry s sz none)

theorem appendBody_maxBytes (l : List Nat) (s : NodeState) :
    (appendBody s l).maxBytes = s.maxBytes := by
  induction l generalizing s with
  | nil => rfl
  | cons sz rest ih => exact ih (appendEntry s sz none)

theorem appendBody_nextTs (l : List Nat) (s : NodeState) :
    (appendBody s l).nextTs = s.nextTs + l.length := by
  induction l generalizing s with
  | nil => rfl
  | cons sz rest ih =>
      have h := ih (appendEntry s sz none)
      simp only [appendEntry_nextTs] at h
      rw [appendBody, h, List.length_cons]
      omega

theorem appendBody_log_mono (l : List Nat) (s : NodeState) (e : LogEntry)
    (he : e ∈ s.log) : e ∈ (appendBody s l).log := by
  induction l generalizing s with
  | nil => exact he
  | cons sz rest ih =>
      exact ih (appendEntry s sz none) (by simp [he])

/-! ### Basic lemmas about the tracker and the clock -/

theorem foldrMin_le (l : List (Nat × Nat)) (p : Nat × Nat) (hp : p ∈ l) :
    ∃ f, l.foldr
        (fun q acc => some (match acc with | none => q.2 | some m => min q.2 m))
        none = some f ∧ f ≤ p.2 := by
  induction l with
  | nil => cases hp
  | cons q rest ih =>
      rcases List.mem_cons.mp hp with hq | hrest
      · subst hq
        cases hacc : rest.foldr
            (fun q acc => some (match acc with | none => q.2 | some m => min q.2 m))
            none with
        | none => exact ⟨p.2, by simp [hacc], le_refl _⟩
        | some m => exact ⟨min p.2 m, by simp [hacc], min_le_left _ _⟩
      · obtain ⟨f, hf, hle⟩ := ih hrest
        rw [List.foldr_cons, hf]
        exact ⟨min q.2 f, rfl, le_trans (min_le_right _ _) hle⟩

theorem Tracker.oldestActiveTimestamp_le (tr : Tracker) (p : Nat × Nat)
    (hp : p ∈ tr.entries) :
    ∃ f, tr.oldestActiveTimestamp = some f ∧ f ≤ p.2 :=
  foldrMin_le tr.entries p hp

theorem CheckpointClock.applyAdvance_le (c : CheckpointClock) (ts : Nat) :
    c.value ≤ (c.applyAdvance ts).value := by
  by_cases h : ts < c.value
  · simp [CheckpointClock.applyAdvance, CheckpointClock.advance, h]
  · simp [CheckpointClock.applyAdvance, CheckpointClock.advance, h]
    omega

theorem CheckpointClock.applyAdvance_of_le (c : CheckpointClock) (ts : Nat)
    (h : c.value ≤ ts) : c.applyAdvance ts = ⟨ts⟩ := by
  have h1 : ¬ ts < c.value := by omega
  simp [CheckpointClock.applyAdvance, CheckpointClock.advance, h1]

/-! ### Boundary monotonicity across single steps -/

theorem doPrepare_boundary (s : NodeState) (tx : Nat) (body : List Nat)
    (psz : Nat) : (s.doPrepare tx body psz).boundary = s.boundary := by
  unfold NodeState.doPrepare
  cases s.tracker.recordPrepared tx s.nextTs with
  | error e => rfl
  | ok tr1 =>
      show (appendEntry (appendBody s body) psz (some tx)).boundary = s.boundary
      rw [appendEntry_boundary]
      exact appendBody_boundary body s

theorem boundary_le_step (s : NodeState) (op : Op) :
    s.boundary ≤ (step s op).boundary := by
  cases op with
  | append sz => exact le_refl _
  | prepare tx body psz =>
      rw [show step s (.prepare tx body psz) = s.doPrepare tx body psz from rfl,
        doPrepare_boundary]
  | resolve tx sz => exact le_refl _
  | checkpoint => exact le_refl _
  | tick => exact le_max_left _ _
  | tickFail k => exact le_refl _

theorem boundary_le_run (s : NodeState) (ops : List Op) :
    s.boundary ≤ (run s ops).boundary := by
  induction ops generalizing s with
  | nil => exact le_refl _
  | cons op rest ih =>
      exact le_trans (boundary_le_step s op) (ih (step s op))

/-! ### Claim theorems: boundary formula, clock, tracker idempotence -/

/-- C2: `computeBoundary` returns the minimum of the size-based cutoff and the
floor sampled at the last checkpoint: when the floor is empty or exceeds the
cutoff the boundary equals the cutoff, otherwise it equals the floor; and the
floor a node uses is exactly the tracker's oldest active timestamp sampled at
the last checkpoint. -/
theorem C2_computeBoundary_is_min :
    (∀ c : Nat, computeBoundary c none = c) ∧
    (∀ c f : Nat,
      computeBoundary c (some f) = min c f ∧
      (c < f → computeBoundary c (some f) = c) ∧
      (f ≤ c → computeBoundary c (some f) = f)) ∧
    (∀ s : NodeState,
      s.doCheckpoint.ckptFloor = s.tracker.oldestActiveTimestamp ∧
      s.newBoundary =
        computeBoundary
          (min (sizeCutoff s.maxBytes s.log) s.clock.lastStableCheckpoint)
          s.ckptFloor) := by
  refine ⟨fun c => rfl, fun c f => ⟨?_, ?_, ?_⟩, fun s => ⟨rfl, rfl⟩⟩
  · show (if c < f then c else f) = min c f
    split <;> omega
  · intro h
    show (if c < f then c else f) = c
    simp [h]
  · intro h
    have h1 : ¬ c < f := by omega
    show (if c < f then c else f) = f
    simp [h1]

/-- C2 witness at concrete inputs. -/
theorem C2_computeBoundary_is_min_witness :
    computeBoundary 5 (some 3) = 3 ∧ computeBoundary 2 (some 7) = 2 :=
  ⟨(C2_computeBoundary_is_min.2.1 5 3).2.2 (by decide),
   (C2_computeBoundary_is_min.2.1 2 7).2.1 (by decide)⟩

/-- C4: the truncation boundary is monotonically non-decreasing: one tick
enforces `max(previousBoundary, newBoundary)`, and across every sequence of
operations the enforced boundary never decreases. -/
theorem C4_boundary_monotone :
    (∀ s : NodeState, s.doTick.boundary = max s.boundary s.newBoundary) ∧
    (∀ (s : NodeState) (ops : List Op), s.boundary ≤ (run s ops).boundary) :=
  ⟨fun _ => rfl, boundary_le_run⟩

/-- C7: `advance` on a timestamp older than the current value fails with
`OutOfOrderCheckpoint` and leaves the clock unchanged, so the value of
`lastStableCheckpoint` is monotonically non-decreasing over any sequence of
advance calls. -/
theorem C7_checkpoint_clock_monotone :
    (∀ (c : CheckpointClock) (ts : Nat), ts < c.value →
      c.advance ts = .error .OutOfOrderCheckpoint ∧ c.applyAdvance ts = c) ∧
    (∀ (c : CheckpointClock) (tss : List Nat),
      c.lastStableCheckpoint ≤
        (tss.foldl CheckpointClock.applyAdvance c).lastStableCheckpoint) := by
  constructor
  · intro c ts h
    refine ⟨by simp [CheckpointClock.advance, h], ?_⟩
    simp [CheckpointClock.applyAdvance, CheckpointClock.advance, h]
  · intro c tss
    induction tss generalizing c with
    | nil => exact le_refl _
    | cons ts rest ih =>
        exact le_trans (c.applyAdvance_le ts) (ih (c.applyAdvance ts))

/-- C7 witness: a concrete backward advance is rejected and ignored. -/
theorem C7_checkpoint_clock_monotone_witness :
    CheckpointClock.advance ⟨5⟩ 3 = .error .OutOfOrderCheckpoint ∧
    CheckpointClock.applyAdvance ⟨5⟩ 3 = ⟨5⟩ :=
  C7_checkpoint_clock_monotone.1 ⟨5⟩ 3 (by decide)

/-- C8: `recordPrepared` is idempotent per transaction id: after a successful
registration, re-recording the same id with the same `startOpTime` returns the
tracker unchanged, while re-recording it with any different `startOpTime`
fails with `InvariantViolation`. -/
theorem C8_recordPrepared_idempotent (tr tr1 : Tracker) (tx ts : Nat)
    (h : tr.recordPrepared tx ts = .ok tr1) :
    tr1.recordPrepared tx ts = .ok tr1 ∧
    (∀ ts2, ts2 ≠ ts →
      tr1.recordPrepared tx ts2 = .error .InvariantViolation) := by
  have hlook : tr1.lookup tx = some ts := by
    unfold Tracker.recordPrepared at h
    split at h
    · simp only [Except.ok.injEq] at h
      subst h
      simp [Tracker.lookup, List.find?]
    · rename_i t hl
      split at h
      · rename_i ht
        simp only [Except.ok.injEq] at h
        subst h
        rw [hl, ht]
      · simp at h
  constructor
  · unfold Tracker.recordPrepared
    rw [hlook]
    simp
  · intro ts2 hne
    unfold Tracker.recordPrepared
    rw [hlook]
    have h2 : ¬ ts = ts2 := fun hh => hne hh.symm
    simp [h2]

/-- C8 witness: a concrete registration, its idempotent repetition, and its
conflicting repetition. -/
theorem C8_recordPrepared_idempotent_witness :
    Tracker.recordPrepared ⟨[(1, 4)]⟩ 1 4 = .ok ⟨[(1, 4)]⟩ ∧
    Tracker.recordPrepared ⟨[(1, 4)]⟩ 1 9 = .error .InvariantViolation :=
  ⟨(C8_recordPrepared_idempotent ⟨[(1, 4)]⟩ ⟨[(1, 4)]⟩ 1 4 (by rfl)).1,
   (C8_recordPrepared_idempotent ⟨[(1, 4)]⟩ ⟨[(1, 4)]⟩ 1 4 (by rfl)).2 9 (by decide)⟩

/-! ### Lemmas about the boundary computation and the sampled floor -/

theorem computeBoundary_le (c : Nat) (fl : Option Nat) :
    computeBoundary c fl ≤ c := by
  cases fl with
  | none => exact le_refl _
  | some f =>
      show (if c < f then c else f) ≤ c
      split <;> omega

theorem computeBoundary_le_floor (c f : Nat) :
    computeBoundary c (some f) ≤ f := by
  show (if c < f then c else f) ≤ f
  split <;> omega

theorem newBoundary_le_clock (s : NodeState) :
    s.newBoundary ≤ s.clock.value :=
  le_trans (computeBoundary_le _ _) (min_le_right _ _)

theorem floorOK_true_iff (fl : Option Nat) (c t : Nat) :
    floorOK fl c t = true ↔ c < t ∨ ∃ f, fl = some f ∧ f ≤ t := by
  cases fl <;> simp [floorOK]

theorem newBoundary_le_of_floorOK (s : NodeState) (t : Nat)
    (h : floorOK s.ckptFloor s.clock.value t = true) : s.newBoundary ≤ t := by
  rcases (floorOK_true_iff _ _ _).mp h with hc | ⟨f, hf, hle⟩
  · exact le_trans (newBoundary_le_clock s) (le_of_lt hc)
  · unfold NodeState.newBoundary
    rw [hf]
    exact le_trans (computeBoundary_le_floor _ _) hle

theorem Tracker.lookup_some_mem (tr : Tracker) (tx t : Nat)
    (h : tr.lookup tx = some t) : (tx, t) ∈ tr.entries := by
  unfold Tracker.lookup at h
  cases hf : tr.entries.find? (fun p => p.1 = tx) with
  | none => rw [hf] at h; cases h
  | some p =>
      rw [hf] at h
      simp at h
      have hmem := List.mem_of_find?_eq_some hf
      have hpred := List.find?_some hf
      simp only [decide_eq_true_eq] at hpred
      have hp : p = (tx, t) := by
        cases p
        simp_all
      rw [← hp]
      exact hmem

theorem Tracker.recordPrepared_ok_cases (tr tr1 : Tracker) (tx n : Nat)
    (h : tr.recordPrepared tx n = .ok tr1) :
    tr1.entries = (tx, n) :: tr.entries ∨
      (tr1 = tr ∧ (tx, n) ∈ tr.entries) := by
  unfold Tracker.recordPrepared at h
  split at h
  · left
    simp only [Except.ok.injEq] at h
    rw [← h]
  · rename_i t hl
    split at h
    · rename_i ht
      right
      simp only [Except.ok.injEq] at h
      rw [ht] at hl
      exact ⟨h.symm, tr.lookup_some_mem tx n hl⟩
    · simp at h

/-! ### Preservation of the node invariant -/

theorem nodeInv_init (m : Nat) : NodeInv (init m) :=
  ⟨List.Pairwise.nil,
   fun e he => absurd he (List.not_mem_nil e),
   Nat.zero_lt_one, le_refl 0, le_refl 0,
   fun e he => absurd he (List.not_mem_nil e),
   fun p hp => absurd hp (List.not_mem_nil p),
   fun p hp => absurd hp (List.not_mem_nil p),
   fun p hp => absurd hp (List.not_mem_nil p),
   fun p hp => absurd hp (List.not_mem_nil p)⟩

theorem nodeInv_appendEntry (s : NodeState) (sz : Nat) (ptx : Option Nat)
    (h : NodeInv s) : NodeInv (appendEntry s sz ptx) := by
  obtain ⟨h1, h2, h3, h4, h5, h6, h7, h8, h9, h10⟩ := h
  refine ⟨?_, ?_, ?_, ?_, ?_, ?_, ?_, ?_, ?_, ?_⟩
  · rw [appendEntry_log, List.pairwise_append]
    refine ⟨h1, by simp, ?_⟩
    intro a ha b hb
    rw [List.mem_singleton] at hb
    subst hb
    have := h2 a ha
    show a.ts < s.nextTs
    omega
  · intro e he
    rw [appendEntry_log, List.mem_append] at he
    rw [appendEntry_lastTs]
    rcases he with hin | hnew
    · have := h2 e hin
      omega
    · rw [List.mem_singleton] at hnew
      subst hnew
      exact le_refl _
  · rw [appendEntry_lastTs, appendEntry_nextTs]
    omega
  · rw [appendEntry_clock, appendEntry_lastTs]
    omega
  · rw [appendEntry_boundary, appendEntry_clock]
    exact h5
  · intro e he
    rw [appendEntry_log, List.mem_append] at he
    rw [appendEntry_boundary]
    rcases he with hin | hnew
    · exact h6 e hin
    · rw [List.mem_singleton] at hnew
      subst hnew
      show s.boundary ≤ s.nextTs
      omega
  · intro p hp
    rw [appendEntry_tracker] at hp
    rw [appendEntry_nextTs]
    have := h7 p hp
    omega
  · intro p hp
    rw [appendEntry_tracker] at hp
    rw [appendEntry_boundary]
    exact h8 p hp
  · intro p hp
    rw [appendEntry_tracker] at hp
    rw [appendEntry_ckptFloor, appendEntry_clock]
    exact h9 p hp
  · intro p hp
    rw [appendEntry_tracker] at hp
    obtain ⟨e, he, hpe, hts⟩ := h10 p hp
    exact ⟨e, by rw [appendEntry_log]; exact List.mem_append_left _ he, hpe, hts⟩

theorem nodeInv_appendBody (body : List Nat) (s : NodeState)
    (h : NodeInv s) : NodeInv (appendBody s body) := by
  induction body generalizing s with
  | nil => exact h
  | cons sz rest ih => exact ih (appendEntry s sz none) (nodeInv_appendEntry s sz none h)

theorem nodeInv_doPrepare (s : NodeState) (tx : Nat) (body : List Nat)
    (psz : Nat) (h : NodeInv s) : NodeInv (s.doPrepare tx body psz) := by
  obtain ⟨h1, h2, h3, h4, h5, h6, h7, h8, h9, h10⟩ := h
  unfold NodeState.doPrepare
  cases hr : s.tracker.recordPrepared tx s.nextTs with
  | error e => exact ⟨h1, h2, h3, h4, h5, h6, h7, h8, h9, h10⟩
  | ok tr1 =>
      have hs2 : NodeInv (appendEntry (appendBody s body) psz (some tx)) :=
        nodeInv_appendEntry _ _ _
          (nodeInv_appendBody body s ⟨h1, h2, h3, h4, h5, h6, h7, h8, h9, h10⟩)
      obtain ⟨a1, a2, a3, a4, a5, a6, a7, a8, a9, a10⟩ := hs2
      have htr : (appendEntry (appendBody s body) psz (some tx)).tracker =
          s.tracker := by
        rw [appendEntry_tracker, appendBody_tracker]
      have hnext : (appendEntry (appendBody s body) psz (some tx)).nextTs =
          s.nextTs + body.length + 1 := by
        rw [appendEntry_nextTs, appendBody_nextTs]
      rcases Tracker.recordPrepared_ok_cases s.tracker tr1 tx s.nextTs hr with
        hcase | ⟨hcase, hmem⟩
      · refine ⟨a1, a2, a3, a4, a5, a6, ?_, ?_, ?_, ?_⟩
        · intro p hp
          show p.2 < (appendEntry (appendBody s body) psz (some tx)).nextTs
          rw [hcase] at hp
          rcases List.mem_cons.mp hp with hnew | hold
          · subst hnew
            rw [hnext]
            omega
          · have := a7 p (by rw [htr]; exact hold)
            exact this
        · intro p hp
          show (appendEntry (appendBody s body) psz (some tx)).boundary ≤ p.2
          rw [appendEntry_boundary, appendBody_boundary]
          rw [hcase] at hp
          rcases List.mem_cons.mp hp with hnew | hold
          · subst hnew
            show s.boundary ≤ s.nextTs
            omega
          · exact h8 p hold
        · intro p hp
          show floorOK (appendEntry (appendBody s body) psz (some tx)).ckptFloor
            (appendEntry (appendBody s body) psz (some tx)).clock.value p.2 = true
          rw [appendEntry_ckptFloor, appendBody_ckptFloor,
            appendEntry_clock, appendBody_clock]
          rw [hcase] at hp
          rcases List.mem_cons.mp hp with hnew | hold
          · subst hnew
            refine (floorOK_true_iff _ _ _).mpr (Or.inl ?_)
            show s.clock.value < s.nextTs
            omega
          · exact h9 p hold
        · intro p hp
          rw [hcase] at hp
          rcases List.mem_cons.mp hp with hnew | hold
          · subst hnew
            refine ⟨⟨(appendBody s body).nextTs, psz, some tx⟩, ?_, rfl, ?_⟩
            · show _ ∈ (appendBody s body).log ++ [_]
              exact List.mem_append_right _ (List.mem_singleton.mpr rfl)
            · show s.nextTs ≤ (appendBody s body).nextTs
              rw [appendBody_nextTs]
              omega
          · obtain ⟨e, he, hpe, hts⟩ := a10 p (by rw [htr]; exact hold)
            exact ⟨e, he, hpe, hts⟩
      · subst hcase
        rw [← htr]
        exact ⟨a1, a2, a3, a4, a5, a6, a7, a8, a9, a10⟩

theorem nodeInv_doResolve (s : NodeState) (tx : Nat) (sz : Nat)
    (h : NodeInv s) : NodeInv (s.doResolve tx sz) := by
  obtain ⟨a1, a2, a3, a4, a5, a6, a7, a8, a9, a10⟩ := nodeInv_appendEntry s sz none h
  have hmem : ∀ p, p ∈ (s.tracker.recordResolved tx).entries →
      p ∈ s.tracker.entries := by
    intro p hp
    exact (List.mem_filter.mp hp).1
  exact ⟨a1, a2, a3, a4, a5, a6,
    fun p hp => a7 p (hmem p hp),
    fun p hp => a8 p (hmem p hp),
    fun p hp => a9 p (hmem p hp),
    fun p hp => a10 p (hmem p hp)⟩

theorem nodeInv_doCheckpoint (s : NodeState) (h : NodeInv s) :
    NodeInv s.doCheckpoint := by
  obtain ⟨h1, h2, h3, h4, h5, h6, h7, h8, h9, h10⟩ := h
  have hclock : s.clock.applyAdvance s.lastTs = ⟨s.lastTs⟩ :=
    s.clock.applyAdvance_of_le s.lastTs h4
  refine ⟨h1, h2, h3, ?_, ?_, h6, h7, h8, ?_, h10⟩
  · show (s.clock.applyAdvance s.lastTs).value ≤ s.lastTs
    rw [hclock]
  · show s.boundary ≤ (s.clock.applyAdvance s.lastTs).value
    rw [hclock]
    show s.boundary ≤ s.lastTs
    omega
  · intro p hp
    obtain ⟨f, hf, hle⟩ := s.tracker.oldestActiveTimestamp_le p hp
    exact (floorOK_true_iff _ _ _).mpr (Or.inr ⟨f, hf, hle⟩)

theorem nodeInv_doTick (s : NodeState) (h : NodeInv s) : NodeInv s.doTick := by
  obtain ⟨h1, h2, h3, h4, h5, h6, h7, h8, h9, h10⟩ := h
  have hb5 : max s.boundary s.newBoundary ≤ s.clock.value :=
    max_le h5 (newBoundary_le_clock s)
  have hb8 : ∀ p ∈ s.tracker.entries, max s.boundary s.newBoundary ≤ p.2 :=
    fun p hp => max_le (h8 p hp) (newBoundary_le_of_floorOK s p.2 (h9 p hp))
  refine ⟨?_, ?_, h3, h4, hb5, ?_, h7, hb8, h9, ?_⟩
  · exact List.Pairwise.sublist (List.filter_sublist _) h1
  · intro e he
    exact h2 e (List.mem_filter.mp he).1
  · intro e he
    have := (List.mem_filter.mp he).2
    exact of_decide_eq_true this
  · intro p hp
    obtain ⟨e, he, hpe, hts⟩ := h10 p hp
    refine ⟨e, ?_, hpe, hts⟩
    exact List.mem_filter.mpr ⟨he, decide_eq_true (le_trans (hb8 p hp) hts)⟩

theorem takeWhile_take_all (p : LogEntry → Bool) :
    ∀ (l : List LogEntry) (j : Nat), j ≤ (l.takeWhile p).length →
      ∀ e ∈ l.take j, p e = true := by
  intro l
  induction l with
  | nil =>
      intro j hj e he
      simp at he
  | cons a rest ih =>
      intro j hj e he
      cases j with
      | zero => simp at he
      | succ m =>
          cases hp : p a with
          | false =>
              rw [List.takeWhile_cons, if_neg (by simp [hp])] at hj
              simp at hj
          | true =>
              rw [List.takeWhile_cons, if_pos (by simp [hp])] at hj
              rw [List.length_cons, Nat.succ_le_succ_iff] at hj
              rw [List.take_succ_cons] at he
              rcases List.mem_cons.mp he with hea | herest
              · subst hea
                exact hp
              · exact ih m hj e herest

theorem mem_drop_of_not_doomed (l : List LogEntry) (p : LogEntry → Bool)
    (j : Nat) (hj : j ≤ (l.takeWhile p).length) (e : LogEntry) (he : e ∈ l)
    (hne : p e = false) : e ∈ l.drop j := by
  have htake := takeWhile_take_all p l j hj
  rw [← List.take_append_drop j l] at he
  rcases List.mem_append.mp he with hin | hout
  · rw [htake e hin] at hne
    cases hne
  · exact hout

theorem nodeInv_doTickFail (s : NodeState) (k : Nat) (h : NodeInv s) :
    NodeInv (s.doTickFail k) := by
  obtain ⟨h1, h2, h3, h4, h5, h6, h7, h8, h9, h10⟩ := h
  have hb8 : ∀ p ∈ s.tracker.entries, max s.boundary s.newBoundary ≤ p.2 :=
    fun p hp => max_le (h8 p hp) (newBoundary_le_of_floorOK s p.2 (h9 p hp))
  refine ⟨?_, ?_, h3, h4, h5, ?_, h7, h8, h9, ?_⟩
  · exact List.Pairwise.sublist (List.drop_sublist _ _) h1
  · intro e he
    exact h2 e (List.mem_of_mem_drop he)
  · intro e he
    exact h6 e (List.mem_of_mem_drop he)
  · intro p hp
    obtain ⟨e, he, hpe, hts⟩ := h10 p hp
    refine ⟨e, ?_, hpe, hts⟩
    refine mem_drop_of_not_doomed s.log _ _ (min_le_right _ _) e he ?_
    exact decide_eq_false (not_lt.mpr (le_trans (hb8 p hp) hts))

theorem nodeInv_step (s : NodeState) (op : Op) (h : NodeInv s) :
    NodeInv (step s op) := by
  cases op with
  | append sz => exact nodeInv_appendEntry s sz none h
  | prepare tx body psz => exact nodeInv_doPrepare s tx body psz h
  | resolve tx sz => exact nodeInv_doResolve s tx sz h
  | checkpoint => exact nodeInv_doCheckpoint s h
  | tick => exact nodeInv_doTick s h
  | tickFail k => exact nodeInv_doTickFail s k h

theorem nodeInv_run (s : NodeState) (ops : List Op) (h : NodeInv s) :
    NodeInv (run s ops) := by
  induction ops generalizing s with
  | nil => exact h
  | cons op rest ih => exact ih (step s op) (nodeInv_step s op h)

theorem nodeInv_reachable (m : Nat) (ops : List Op) :
    NodeInv (run (init m) ops) :=
  nodeInv_run (init m) ops (nodeInv_init m)

/-! ### Lemmas about the size-based cutoff -/

theorem logBytes_sublist (l1 l2 : List LogEntry) (h : l1.Sublist l2) :
    logBytes l1 ≤ logBytes l2 :=
  List.Sublist.sum_le_sum (h.map _) (fun a _ => Nat.zero_le a)

theorem sizeCutoff_mem (maxB : Nat) (l : List LogEntry) :
    l ≠ [] → ∃ e ∈ l, sizeCutoff maxB l = e.ts := by
  induction l with
  | nil => intro hne; exact absurd rfl hne
  | cons a rest ih =>
      intro hne
      cases rest with
      | nil => exact ⟨a, List.mem_singleton.mpr rfl, rfl⟩
      | cons b rs =>
          by_cases hfit : logBytes (a :: b :: rs) ≤ maxB
          · exact ⟨a, List.mem_cons_self _ _, by simp [sizeCutoff, hfit]⟩
          · obtain ⟨e, he, heq⟩ := ih (by simp)
            exact ⟨e, List.mem_cons_of_mem _ he, by simp [sizeCutoff, hfit, heq]⟩

theorem sizeCutoff_filter_le (maxB : Nat) (l : List LogEntry)
    (hsz : ∀ e ∈ l, e.size ≤ maxB)
    (hsorted : l.Pairwise (fun x y => x.ts < y.ts)) (b : Nat)
    (hb : sizeCutoff maxB l ≤ b) :
    logBytes (l.filter (fun e => b ≤ e.ts)) ≤ maxB := by
  induction l with
  | nil => exact Nat.zero_le _
  | cons a rest ih =>
      cases rest with
      | nil =>
          have ha : a.size ≤ maxB := hsz a (List.mem_cons_self _ _)
          have hsub := logBytes_sublist _ _
            (@List.filter_sublist _ (fun e => b ≤ e.ts) [a])
          have : logBytes [a] = a.size := by simp [logBytes]
          omega
      | cons b1 rs =>
          by_cases hfit : logBytes (a :: b1 :: rs) ≤ maxB
          · have hsub := logBytes_sublist _ _
              (@List.filter_sublist _ (fun e => b ≤ e.ts) (a :: b1 :: rs))
            omega
          · have hcut : sizeCutoff maxB (a :: b1 :: rs) = sizeCutoff maxB (b1 :: rs) := by
              simp [sizeCutoff, hfit]
            rw [hcut] at hb
            obtain ⟨e, he, heq⟩ := sizeCutoff_mem maxB (b1 :: rs) (by simp)
            have hlt : a.ts < e.ts := by
              have := List.pairwise_cons.mp hsorted
              exact this.1 e he
            have hats : a.ts < b := by omega
            have hdrop : List.filter (fun e => b ≤ e.ts) (a :: b1 :: rs) =
                List.filter (fun e => b ≤ e.ts) (b1 :: rs) := by
              refine List.filter_cons_of_neg ?_
              simp
              omega
            rw [hdrop]
            exact ih (fun e hmem => hsz e (List.mem_cons_of_mem _ hmem))
              (List.pairwise_cons.mp hsorted).2 hb

theorem sizeCutoff_cons_of_lt (maxB : Nat) (a : LogEntry) (rest : List LogEntry)
    (h : a.ts < sizeCutoff maxB (a :: rest)) :
    sizeCutoff maxB (a :: rest) = sizeCutoff maxB rest := by
  cases rest with
  | nil =>
      exfalso
      have : sizeCutoff maxB [a] = a.ts := rfl
      omega
  | cons b rs =>
      by_cases hfit : logBytes (a :: b :: rs) ≤ maxB
      · exfalso
        have : sizeCutoff maxB (a :: b :: rs) = a.ts := by simp [sizeCutoff, hfit]
        omega
      · simp [sizeCutoff, hfit]

theorem sizeCutoff_drop (maxB : Nat) :
    ∀ (j : Nat) (l : List LogEntry),
      (∀ e ∈ l.take j, e.ts < sizeCutoff maxB l) →
      sizeCutoff maxB (l.drop j) = sizeCutoff maxB l := by
  intro j
  induction j with
  | zero => intro l h; rfl
  | succ m ih =>
      intro l h
      cases l with
      | nil => rfl
      | cons a rest =>
          have ha : a.ts < sizeCutoff maxB (a :: rest) := by
            refine h a ?_
            rw [List.take_succ_cons]
            exact List.mem_cons_self _ _
          have heq := sizeCutoff_cons_of_lt maxB a rest ha
          rw [List.drop_succ_cons, ih rest ?_, heq]
          intro e he
          rw [← heq]
          refine h e ?_
          rw [List.take_succ_cons]
          exact List.mem_cons_of_mem _ he

/-! ### Claim theorems: prepared-transaction preservation and size convergence -/

/-- C1: at every reachable state, the enforced retention boundary is at most
the `startOpTime` of every currently prepared transaction, and the oplog still
contains that transaction's prepare record (whose timestamp is at or above the
boundary, hence out of reach of truncation) — and, as the concrete second
conjunct shows, this holds even in states where the oplog has grown past
`configuredMaxBytes`. -/
theorem C1_prepared_txn_pins_boundary :
    (∀ (m : Nat) (ops : List Op) (p : Nat × Nat),
      p ∈ (run (init m) ops).tracker.entries →
      (run (init m) ops).boundary ≤ p.2 ∧
      ∃ e ∈ (run (init m) ops).log,
        e.prepareTxn = some p.1 ∧ p.2 ≤ e.ts ∧
        (run (init m) ops).boundary ≤ e.ts) ∧
    (logBytes (run (init 5)
        [.append 3, .checkpoint, .prepare 7 [] 3, .append 3, .append 3,
         .checkpoint, .tick]).log > (init 5).maxBytes ∧
      (⟨2, 3, some 7⟩ : LogEntry) ∈ (run (init 5)
        [.append 3, .checkpoint, .prepare 7 [] 3, .append 3, .append 3,
         .checkpoint, .tick]).log ∧
      (7, 2) ∈ (run (init 5)
        [.append 3, .checkpoint, .prepare 7 [] 3, .append 3, .append 3,
         .checkpoint, .tick]).tracker.entries) := by
  constructor
  · intro m ops p hp
    obtain ⟨_, _, _, _, _, _, _, h8, _, h10⟩ := nodeInv_reachable m ops
    obtain ⟨e, he, hpe, hts⟩ := h10 p hp
    exact ⟨h8 p hp, e, he, hpe, hts, le_trans (h8 p hp) hts⟩
  · exact ⟨by decide, by decide, by decide⟩

/-- C1 witness: a concrete prepared transaction with `startOpTime = 2` in a
state whose oplog has outgrown the configured maximum. -/
theorem C1_prepared_txn_pins_boundary_witness :
    (run (init 5)
      [.append 3, .checkpoint, .prepare 7 [] 3, .append 3, .append 3,
       .checkpoint, .tick]).boundary ≤ 2 ∧
    ∃ e ∈ (run (init 5)
      [.append 3, .checkpoint, .prepare 7 [] 3, .append 3, .append 3,
       .checkpoint, .tick]).log,
      e.prepareTxn = some 7 ∧ 2 ≤ e.ts ∧
      (run (init 5)
        [.append 3, .checkpoint, .prepare 7 [] 3, .append 3, .append 3,
         .checkpoint, .tick]).boundary ≤ e.ts :=
  C1_prepared_txn_pins_boundary.1 5
    [.append 3, .checkpoint, .prepare 7 [] 3, .append 3, .append 3,
     .checkpoint, .tick] (7, 2) (by decide)

/-- C3 counterexample: the claim "if no transaction is prepared, the log size
converges to at most configuredMaxBytes after enough ticks" fails when a
single entry is larger than `configuredMaxBytes`: here no transaction is
prepared, the state is a fixpoint of the checkpoint/tick cycle, and yet the
log holds 6 bytes against a configured maximum of 5 — the newest entry is
never truncated, so no number of further ticks shrinks the log. -/
theorem C3_counterexample_oversized_entry :
    run (run (init 5) [.append 6, .checkpoint, .tick]) [.checkpoint, .tick] =
      run (init 5) [.append 6, .checkpoint, .tick] ∧
    (run (init 5) [.append 6, .checkpoint, .tick]).tracker.entries = [] ∧
    logBytes (run (init 5) [.append 6, .checkpoint, .tick]).log >
      (run (init 5) [.append 6, .checkpoint, .tick]).maxBytes :=
  ⟨by decide, by decide, by decide⟩

/-- Shared convergence lemma: in any state satisfying the node invariant with
no prepared transaction and every entry at most `configuredMaxBytes`, one
checkpoint/tick cycle brings the log size within `configuredMaxBytes`. -/
theorem logBytes_cycle_le (s : NodeState) (hInv : NodeInv s)
    (hempty : s.tracker.entries = [])
    (hsz : ∀ e ∈ s.log, e.size ≤ s.maxBytes) :
    logBytes (run s [.checkpoint, .tick]).log ≤ s.maxBytes := by
  obtain ⟨h1, h2, h3, h4, h5, h6, h7, h8, h9, h10⟩ := hInv
  have hckfloor : s.doCheckpoint.ckptFloor = none := by
    show s.tracker.oldestActiveTimestamp = none
    unfold Tracker.oldestActiveTimestamp
    rw [hempty]
    rfl
  have hclock : s.clock.applyAdvance s.lastTs = ⟨s.lastTs⟩ :=
    s.clock.applyAdvance_of_le s.lastTs h4
  have hnb : s.doCheckpoint.newBoundary =
      min (sizeCutoff s.maxBytes s.log) s.lastTs := by
    unfold NodeState.newBoundary
    rw [hckfloor]
    show computeBoundary
      (min (sizeCutoff s.maxBytes s.log)
        (s.clock.applyAdvance s.lastTs).lastStableCheckpoint) none = _
    rw [hclock]
    rfl
  have hcut_le : sizeCutoff s.maxBytes s.log ≤ s.lastTs := by
    by_cases hl : s.log = []
    · rw [hl]
      exact Nat.zero_le _
    · obtain ⟨e, he, heq⟩ := sizeCutoff_mem s.maxBytes s.log hl
      rw [heq]
      exact h2 e he
  have hmin : min (sizeCutoff s.maxBytes s.log) s.lastTs =
      sizeCutoff s.maxBytes s.log := min_eq_left hcut_le
  show logBytes (s.log.filter
    (fun e => max s.boundary s.doCheckpoint.newBoundary ≤ e.ts)) ≤ s.maxBytes
  rw [hnb, hmin]
  exact sizeCutoff_filter_le s.maxBytes s.log hsz h1 _ (le_max_right _ _)

/-- C3 (amended): in any reachable state in which no transaction is prepared
and no single log entry exceeds `configuredMaxBytes`, one checkpoint/tick
cycle brings the log size to at most `configuredMaxBytes`.  In particular this
holds right after the last prepared transaction commits or aborts, since
resolution empties the tracker entry for it. -/
theorem C3_size_convergence (s : NodeState) (hInv : NodeInv s)
    (hempty : s.tracker.entries = [])
    (hsz : ∀ e ∈ s.log, e.size ≤ s.maxBytes) :
    logBytes (run s [.checkpoint, .tick]).log ≤ s.maxBytes :=
  logBytes_cycle_le s hInv hempty hsz

/-- C3 witness: a concrete reachable state with no prepared transaction whose
log shrinks to within the configured maximum after one checkpoint/tick
cycle. -/
theorem C3_size_convergence_witness :
    logBytes (run (run (init 5) [.append 3, .append 3, .append 3])
      [.checkpoint, .tick]).log ≤
      (run (init 5) [.append 3, .append 3, .append 3]).maxBytes :=
  C3_size_convergence (run (init 5) [.append 3, .append 3, .append 3])
    (by decide) (by decide) (by decide)

/-! ### The replicated part of the state is determined by the feed -/

theorem feedStep_of_step (s : NodeState) (op : Op) :
    ((step s op).tracker, (step s op).nextTs) =
      feedStep (s.tracker, s.nextTs) op := by
  cases op with
  | append sz => rfl
  | prepare tx body psz =>
      show ((s.doPrepare tx body psz).tracker, (s.doPrepare tx body psz).nextTs) = _
      unfold NodeState.doPrepare
      show _ = (match s.tracker.recordPrepared tx s.nextTs with
        | .ok tr1 => (tr1, s.nextTs + body.length + 1)
        | .error _ => (s.tracker, s.nextTs))
      cases hr : s.tracker.recordPrepared tx s.nextTs with
      | error e => rfl
      | ok tr1 =>
          show (tr1, (appendEntry (appendBody s body) psz (some tx)).nextTs) = _
          rw [appendEntry_nextTs, appendBody_nextTs]
  | resolve tx sz => rfl
  | checkpoint => rfl
  | tick => rfl
  | tickFail k => rfl

theorem feedRun (ops : List Op) : ∀ s : NodeState,
    ((run s ops).tracker, (run s ops).nextTs) =
      ops.foldl feedStep (s.tracker, s.nextTs) := by
  induction ops with
  | nil => intro s; rfl
  | cons op rest ih =>
      intro s
      show ((run (step s op) rest).tracker, (run (step s op) rest).nextTs) =
        List.foldl feedStep (feedStep (s.tracker, s.nextTs) op) rest
      rw [← feedStep_of_step s op]
      exact ih (step s op)

theorem feedStep_local (q : Tracker × Nat) (op : Op)
    (h : isFeedOp op = false) : feedStep q op = q := by
  cases op with
  | append sz => simp [isFeedOp] at h
  | prepare tx body psz => simp [isFeedOp] at h
  | resolve tx sz => simp [isFeedOp] at h
  | checkpoint => cases q; rfl
  | tick => cases q; rfl
  | tickFail k => cases q; rfl

theorem foldl_feedStep_filter (ops : List Op) : ∀ q : Tracker × Nat,
    ops.foldl feedStep q = (ops.filter isFeedOp).foldl feedStep q := by
  induction ops with
  | nil => intro q; rfl
  | cons op rest ih =>
      intro q
      cases hf : isFeedOp op with
      | true =>
          rw [List.filter_cons_of_pos hf]
          show List.foldl feedStep (feedStep q op) rest = _
          exact ih (feedStep q op)
      | false =>
          rw [List.filter_cons_of_neg (by simp [hf])]
          show List.foldl feedStep (feedStep q op) rest = _
          rw [feedStep_local q op hf]
          exact ih q

/-- C5 counterexample: the claim includes that post-resolution size
convergence holds independently on the secondary, unconditionally.  Here a
secondary receives exactly the same replicated feed as a primary (prepare,
resolve, then an oversized append) while running its own checkpoint/tick
schedule: after the transaction is resolved its tracker is empty, yet the
state is a fixpoint of the checkpoint/tick cycle whose log size stays above
`configuredMaxBytes` — the newest entry alone is larger than the maximum and
is never truncated, so no number of further cycles converges. -/
theorem C5_counterexample_secondary_no_convergence :
    ([.prepare 7 [] 2, .resolve 7 1, .append 6, .checkpoint, .tick] :
        List Op).filter isFeedOp =
      ([.prepare 7 [] 2, .checkpoint, .resolve 7 1, .append 6, .checkpoint,
        .tick] : List Op).filter isFeedOp ∧
    (run (init 5) [.prepare 7 [] 2, .checkpoint, .resolve 7 1, .append 6,
      .checkpoint, .tick]).tracker.entries = [] ∧
    run (run (init 5) [.prepare 7 [] 2, .checkpoint, .resolve 7 1, .append 6,
        .checkpoint, .tick]) [.checkpoint, .tick] =
      run (init 5) [.prepare 7 [] 2, .checkpoint, .resolve 7 1, .append 6,
        .checkpoint, .tick] ∧
    logBytes (run (init 5) [.prepare 7 [] 2, .checkpoint, .resolve 7 1,
        .append 6, .checkpoint, .tick]).log >
      (run (init 5) [.prepare 7 [] 2, .checkpoint, .resolve 7 1, .append 6,
        .checkpoint, .tick]).maxBytes :=
  ⟨by decide, by decide, by decide, by decide⟩

/-- C5 (amended): a secondary that received the same replicated feed (appends,
prepares, resolutions) as the primary — but took its own checkpoints and
truncator ticks — has exactly the same TransactionRecord side-table (tracker),
including each transaction's `startOpTime`, and the same timestamp source; on
the secondary the retention behaviour holds independently: the boundary never
passes a prepared transaction's `startOpTime` and its prepare record is still
in the secondary's oplog; and — provided no single log entry exceeds
`configuredMaxBytes` — once no transaction remains prepared (in particular
after the prepared transaction resolves), the secondary's log size returns to
at most `configuredMaxBytes` after its next checkpoint/tick cycle. -/
theorem C5_secondary_matches_primary (m : Nat) (opsP opsS : List Op)
    (hfeed : opsP.filter isFeedOp = opsS.filter isFeedOp) :
    (run (init m) opsP).tracker = (run (init m) opsS).tracker ∧
    (run (init m) opsP).nextTs = (run (init m) opsS).nextTs ∧
    (∀ p ∈ (run (init m) opsS).tracker.entries,
      (run (init m) opsS).boundary ≤ p.2 ∧
      ∃ e ∈ (run (init m) opsS).log,
        e.prepareTxn = some p.1 ∧ p.2 ≤ e.ts) ∧
    ((run (init m) opsS).tracker.entries = [] →
      (∀ e ∈ (run (init m) opsS).log,
        e.size ≤ (run (init m) opsS).maxBytes) →
      logBytes (run (run (init m) opsS) [.checkpoint, .tick]).log ≤
        (run (init m) opsS).maxBytes) := by
  have hpair : ((run (init m) opsP).tracker, (run (init m) opsP).nextTs) =
      ((run (init m) opsS).tracker, (run (init m) opsS).nextTs) := by
    rw [feedRun opsP (init m), feedRun opsS (init m),
      foldl_feedStep_filter opsP, foldl_feedStep_filter opsS, hfeed]
  refine ⟨congrArg Prod.fst hpair, congrArg Prod.snd hpair, ?_, ?_⟩
  · intro p hp
    obtain ⟨_, _, _, _, _, _, _, h8, _, h10⟩ := nodeInv_reachable m opsS
    exact ⟨h8 p hp, h10 p hp⟩
  · intro hempty hsz
    exact logBytes_cycle_le (run (init m) opsS) (nodeInv_reachable m opsS)
      hempty hsz

/-- C5 witness: a primary trace and a secondary trace sharing the feed but
with different local checkpoint/tick schedules agree on the tracker, the
secondary preserves the prepared transaction with `startOpTime = 1`, and on a
second feed-sharing pair whose transaction has resolved, the secondary's log
size is back within the configured maximum after one checkpoint/tick cycle. -/
theorem C5_secondary_matches_primary_witness :
    (run (init 9) [.prepare 3 [] 2, .append 2, .checkpoint, .tick]).tracker =
      (run (init 9)
        [.prepare 3 [] 2, .checkpoint, .append 2, .tick, .tick]).tracker ∧
    (run (init 9)
      [.prepare 3 [] 2, .checkpoint, .append 2, .tick, .tick]).boundary ≤ 1 ∧
    (∃ e ∈ (run (init 9)
      [.prepare 3 [] 2, .checkpoint, .append 2, .tick, .tick]).log,
      e.prepareTxn = some 3 ∧ 1 ≤ e.ts) ∧
    logBytes (run (run (init 9)
        [.prepare 3 [] 2, .checkpoint, .append 2, .tick, .resolve 3 1])
        [.checkpoint, .tick]).log ≤
      (run (init 9)
        [.prepare 3 [] 2, .checkpoint, .append 2, .tick,
         .resolve 3 1]).maxBytes :=
  ⟨(C5_secondary_matches_primary 9
      [.prepare 3 [] 2, .append 2, .checkpoint, .tick]
      [.prepare 3 [] 2, .checkpoint, .append 2, .tick, .tick] (by decide)).1,
   ((C5_secondary_matches_primary 9
      [.prepare 3 [] 2, .append 2, .checkpoint, .tick]
      [.prepare 3 [] 2, .checkpoint, .append 2, .tick, .tick] (by decide)).2.2.1
      (3, 1) (by decide)).1,
   ((C5_secondary_matches_primary 9
      [.prepare 3 [] 2, .append 2, .checkpoint, .tick]
      [.prepare 3 [] 2, .checkpoint, .append 2, .tick, .tick] (by decide)).2.2.1
      (3, 1) (by decide)).2,
   (C5_secondary_matches_primary 9
      [.prepare 3 [] 2, .append 2, .resolve 3 1, .checkpoint, .tick]
      [.prepare 3 [] 2, .checkpoint, .append 2, .tick, .resolve 3 1]
      (by decide)).2.2.2 (by decide) (by decide)⟩

/-- C10: for a freshly prepared transaction, the recorded `startOpTime` is the
timestamp of the transaction's first oplog entry, and the prepare oplog
entry's own timestamp — the timestamp the prepare operation reports as the
newest write — is `startOpTime` shifted by the number of body entries.  Under
the single-oplog-entry format (no body entries) the two coincide; under the
multiple-oplog-entry format (at least one body entry) `startOpTime` is
strictly below the prepare timestamp. -/
theorem C10_oplog_entry_formats (s : NodeState) (tx : Nat) (body : List Nat)
    (psz : Nat) (hfresh : s.tracker.lookup tx = none) :
    (s.doPrepare tx body psz).tracker.lookup tx = some s.nextTs ∧
    (s.doPrepare tx body psz).lastTs = s.nextTs + body.length ∧
    (∃ e ∈ (s.doPrepare tx body psz).log,
      e.prepareTxn = some tx ∧ e.ts = s.nextTs + body.length) ∧
    (body = [] → s.nextTs = s.nextTs + body.length) ∧
    (body ≠ [] → s.nextTs < s.nextTs + body.length) := by
  have hr : s.tracker.recordPrepared tx s.nextTs =
      .ok ⟨(tx, s.nextTs) :: s.tracker.entries⟩ := by
    unfold Tracker.recordPrepared
    rw [hfresh]
  have hstep : s.doPrepare tx body psz =
      { appendEntry (appendBody s body) psz (some tx) with
        tracker := ⟨(tx, s.nextTs) :: s.tracker.entries⟩ } := by
    unfold NodeState.doPrepare
    rw [hr]
  refine ⟨?_, ?_, ?_, ?_, ?_⟩
  · rw [hstep]
    show Tracker.lookup ⟨(tx, s.nextTs) :: s.tracker.entries⟩ tx = some s.nextTs
    simp [Tracker.lookup, List.find?]
  · rw [hstep]
    show (appendEntry (appendBody s body) psz (some tx)).lastTs =
      s.nextTs + body.length
    rw [appendEntry_lastTs, appendBody_nextTs]
  · rw [hstep]
    refine ⟨⟨(appendBody s body).nextTs, psz, some tx⟩, ?_, rfl, ?_⟩
    · show _ ∈ (appendBody s body).log ++ [_]
      exact List.mem_append_right _ (List.mem_singleton.mpr rfl)
    · show (appendBody s body).nextTs = s.nextTs + body.length
      exact appendBody_nextTs body s
  · intro hb
    rw [hb]
    rfl
  · intro hb
    have := List.length_pos.mpr hb
    omega

/-- C10 witness: with no body entries `startOpTime` equals the prepare
timestamp 1; with one body entry `startOpTime` is 1 while the prepare
timestamp is 2. -/
theorem C10_oplog_entry_formats_witness :
    ((init 5).doPrepare 1 [] 3).tracker.lookup 1 = some 1 ∧
    ((init 5).doPrepare 1 [] 3).lastTs = 1 ∧
    ((init 5).doPrepare 1 [2] 3).tracker.lookup 1 = some 1 ∧
    ((init 5).doPrepare 1 [2] 3).lastTs = 2 ∧
    (1 : Nat) < 2 :=
  ⟨(C10_oplog_entry_formats (init 5) 1 [] 3 (by decide)).1,
   (C10_oplog_entry_formats (init 5) 1 [] 3 (by decide)).2.1,
   (C10_oplog_entry_formats (init 5) 1 [2] 3 (by decide)).1,
   (C10_oplog_entry_formats (init 5) 1 [2] 3 (by decide)).2.1,
   (C10_oplog_entry_formats (init 5) 1 [2] 3 (by decide)).2.2.2.2 (by decide)⟩

/-! ### Secondary application order: oplog entry before side-table entry -/

theorem applyFeed_side_implies_oplog (txns : List (Nat × Nat × Nat)) :
    ∀ (n : Nat) (st : SecApplyState),
      (∀ tx t, (tx, t) ∈ st.sideTable →
        ∃ e ∈ st.oplog, e.prepareTxn = some tx ∧ e.ts = t) →
      ∀ tx t,
        (tx, t) ∈ (((expandFeed txns).take n).foldl applyStep st).sideTable →
        ∃ e ∈ (((expandFeed txns).take n).foldl applyStep st).oplog,
          e.prepareTxn = some tx ∧ e.ts = t := by
  induction txns with
  | nil =>
      intro n st h tx t hmem
      have hnil : (expandFeed ([] : List (Nat × Nat × Nat))).take n = [] :=
        List.take_nil
      rw [hnil] at hmem ⊢
      exact h tx t hmem
  | cons q rest ih =>
      intro n st h tx t hmem
      cases n with
      | zero => exact h tx t hmem
      | succ n1 =>
          cases n1 with
          | zero =>
              obtain ⟨e, he, hp1, hp2⟩ := h tx t hmem
              exact ⟨e, List.mem_append_left _ he, hp1, hp2⟩
          | succ n2 =>
              refine ih n2
                (applyStep (applyStep st (.oplogWrite ⟨q.2.1, q.2.2, some q.1⟩))
                  (.sideWrite q.1 q.2.1)) ?_ tx t hmem
              intro tx1 t1 hm1
              rcases List.mem_append.mp hm1 with hold | hnew
              · obtain ⟨e, he, hp1, hp2⟩ := h tx1 t1 hold
                exact ⟨e, List.mem_append_left _ he, hp1, hp2⟩
              · have hpair := List.mem_singleton.mp hnew
                rw [Prod.mk.injEq] at hpair
                refine ⟨⟨q.2.1, q.2.2, some q.1⟩,
                  List.mem_append_right _ (List.mem_singleton.mpr rfl), ?_, ?_⟩
                · rw [hpair.1]
                · rw [hpair.2]

/-- C6 counterexample: the claim says the side-table entry is durable no later
than the log entry, i.e. no reachable secondary state has the prepare oplog
entry durable while the side-table entry is missing.  The state reached after
applying only the first write of a replicated prepared transaction is exactly
that: the prepare oplog entry is present and the side-table is still empty —
matching the test, which polls until the side-table entry appears and only
then asserts the oplog entry exists. -/
theorem C6_counterexample_oplog_first :
    (runApply ((expandFeed [(1, 5, 3)]).take 1)).oplog = [⟨5, 3, some 1⟩] ∧
    (runApply ((expandFeed [(1, 5, 3)]).take 1)).sideTable = [] :=
  ⟨rfl, rfl⟩

/-- C6 (amended): the durability ordering is the reverse of the claim — the
log entry is durable no later than the side-table entry.  In every state a
secondary can reach while applying replicated prepared transactions, if a
transaction's side-table record is durable then its prepare oplog entry
already is; equivalently there is no reachable state in which the side-table
entry is durable while the log entry is not. -/
theorem C6_oplog_durable_no_later (txns : List (Nat × Nat × Nat)) (n : Nat)
    (tx t : Nat)
    (hmem : (tx, t) ∈ (runApply ((expandFeed txns).take n)).sideTable) :
    ∃ e ∈ (runApply ((expandFeed txns).take n)).oplog,
      e.prepareTxn = some tx ∧ e.ts = t :=
  applyFeed_side_implies_oplog txns n ⟨[], []⟩
    (fun _ _ hmem1 => absurd hmem1 (List.not_mem_nil _)) tx t hmem

/-- C6 witness: once both writes of the transaction have been applied, the
side-table entry is present and the theorem recovers its prepare oplog
entry. -/
theorem C6_oplog_durable_no_later_witness :
    ∃ e ∈ (runApply ((expandFeed [(1, 5, 3)]).take 2)).oplog,
      e.prepareTxn = some 1 ∧ e.ts = 5 :=
  C6_oplog_durable_no_later [(1, 5, 3)] 2 1 5 (by decide)

/-- C9: a truncator tick hit by a storage I/O error after deleting only `k`
batches of the doomed prefix records no boundary advancement, never deletes
an entry at or above the boundary this tick would have enforced, and the next
successful tick computes the very same boundary and produces the very same
state as if the failed tick had never happened — the failure is retried, never
harmful. -/
theorem C9_truncation_failure_retried (s : NodeState) (k : Nat)
    (hwf : ∀ e ∈ s.log, s.boundary ≤ e.ts) :
    (s.doTickFail k).boundary = s.boundary ∧
    (∀ e ∈ s.log, max s.boundary s.newBoundary ≤ e.ts →
      e ∈ (s.doTickFail k).log) ∧
    (s.doTickFail k).doTick = s.doTick := by
  have hjle : min k (List.length (List.takeWhile
        (fun e => e.ts < max s.boundary s.newBoundary) s.log)) ≤
      (List.takeWhile
        (fun e => e.ts < max s.boundary s.newBoundary) s.log).length :=
    min_le_right _ _
  have htake : ∀ e ∈ s.log.take (min k (List.length (List.takeWhile
        (fun e => e.ts < max s.boundary s.newBoundary) s.log))),
      e.ts < sizeCutoff s.maxBytes s.log := by
    intro e he
    have hd := takeWhile_take_all
      (fun e => e.ts < max s.boundary s.newBoundary) s.log _ hjle e he
    have h1 : e.ts < max s.boundary s.newBoundary := of_decide_eq_true hd
    have h2 : s.boundary ≤ e.ts := hwf e (List.mem_of_mem_take he)
    have h4 : s.newBoundary ≤ sizeCutoff s.maxBytes s.log :=
      le_trans (computeBoundary_le _ _) (min_le_left _ _)
    omega
  have hcut : sizeCutoff s.maxBytes ((s.doTickFail k).log) =
      sizeCutoff s.maxBytes s.log :=
    sizeCutoff_drop s.maxBytes _ s.log htake
  have hnb : (s.doTickFail k).newBoundary = s.newBoundary := by
    show computeBoundary (min (sizeCutoff s.maxBytes ((s.doTickFail k).log))
      s.clock.lastStableCheckpoint) s.ckptFloor = s.newBoundary
    rw [hcut]
    rfl
  have hmid : ∀ e ∈ s.log, max s.boundary s.newBoundary ≤ e.ts →
      e ∈ (s.doTickFail k).log := by
    intro e he hge
    exact mem_drop_of_not_doomed s.log _ _ hjle e he
      (decide_eq_false (not_lt.mpr hge))
  have hnil : List.filter (fun e => max s.boundary s.newBoundary ≤ e.ts)
      (s.log.take (min k (List.length (List.takeWhile
        (fun e => e.ts < max s.boundary s.newBoundary) s.log)))) = [] := by
    rw [List.filter_eq_nil_iff]
    intro e he
    have hd := takeWhile_take_all
      (fun e => e.ts < max s.boundary s.newBoundary) s.log _ hjle e he
    have h1 : e.ts < max s.boundary s.newBoundary := of_decide_eq_true hd
    simp
    omega
  have hflt : List.filter (fun e => max s.boundary s.newBoundary ≤ e.ts)
      ((s.doTickFail k).log) =
      List.filter (fun e => max s.boundary s.newBoundary ≤ e.ts) s.log := by
    conv_rhs => rw [← List.take_append_drop (min k (List.length
      (List.takeWhile (fun e => e.ts < max s.boundary s.newBoundary) s.log)))
      s.log]
    rw [List.filter_append, hnil, List.nil_append]
    rfl
  refine ⟨rfl, hmid, ?_⟩
  show ({ s.doTickFail k with
      boundary := max s.boundary ((s.doTickFail k).newBoundary)
      log := ((s.doTickFail k).log).filter
        (fun e => max s.boundary ((s.doTickFail k).newBoundary) ≤ e.ts) } :
      NodeState) = s.doTick
  rw [hnb, hflt]
  rfl

/-- C9 witness: in a concrete reachable state a failing tick that only
manages two deletion batches leaves the recorded boundary alone, keeps the
entry at timestamp 4 (which sits at the would-be boundary), and the next
successful tick lands in exactly the state a clean tick would have
produced. -/
theorem C9_truncation_failure_retried_witness :
    ((run (init 5)
      [.append 3, .checkpoint, .prepare 7 [] 3, .append 3, .append 3,
       .checkpoint, .tick, .resolve 7 1, .checkpoint]).doTickFail 2).boundary =
      (run (init 5)
        [.append 3, .checkpoint, .prepare 7 [] 3, .append 3, .append 3,
         .checkpoint, .tick, .resolve 7 1, .checkpoint]).boundary ∧
    (⟨4, 3, none⟩ : LogEntry) ∈ ((run (init 5)
      [.append 3, .checkpoint, .prepare 7 [] 3, .append 3, .append 3,
       .checkpoint, .tick, .resolve 7 1, .checkpoint]).doTickFail 2).log ∧
    ((run (init 5)
      [.append 3, .checkpoint, .prepare 7 [] 3, .append 3, .append 3,
       .checkpoint, .tick, .resolve 7 1, .checkpoint]).doTickFail 2).doTick =
      (run (init 5)
        [.append 3, .checkpoint, .prepare 7 [] 3, .append 3, .append 3,
         .checkpoint, .tick, .resolve 7 1, .checkpoint]).doTick :=
  ⟨(C9_truncation_failure_retried (run (init 5)
      [.append 3, .checkpoint, .prepare 7 [] 3, .append 3, .append 3,
       .checkpoint, .tick, .resolve 7 1, .checkpoint]) 2 (by decide)).1,
   (C9_truncation_failure_retried (run (init 5)
      [.append 3, .checkpoint, .prepare 7 [] 3, .append 3, .append 3,
       .checkpoint, .tick, .resolve 7 1, .checkpoint]) 2 (by decide)).2.1
     ⟨4, 3, none⟩ (by decide) (by decide),
   (C9_truncation_failure_retried (run (init 5)
      [.append 3, .checkpoint, .prepare 7 [] 3, .append 3, .append 3,
       .checkpoint, .tick, .resolve 7 1, .checkpoint]) 2 (by decide)).2.2⟩
